import Mathlib

/-!
Shallow embedding of the golang-ical parsing/serialization core
(calendar.go, components.go and the current property implementation file)
and proofs about the specified properties.

Go strings are modelled as lists of bytes (`List Nat`, each element < 256 in
practice); all string constants in the code are ASCII, so `gs` converts a
Lean string literal to its byte list.
-/

namespace ICal

/-- A Go string, as its byte sequence. -/
abbrev GoStr := List Nat

/-- Byte list of an ASCII Lean string literal (all constants in the source are ASCII). -/
def gs (s : String) : GoStr := s.data.map Char.toNat

/-! ### TEXT escaping (`ToText` / `FromText`)

`ToText` is `strings.NewReplacer("\\","\\\\", "\n","\\n", ";","\\;", ",","\\,").Replace`:
scan left to right, at each position try the patterns in argument order, replace
the first match and continue after it, otherwise copy one byte.  All patterns
are single ASCII bytes, so the byte-level scan coincides with Go's. -/
def toText : GoStr → GoStr
  | [] => []
  | b :: t =>
    if b = 92 then 92 :: 92 :: toText t
    else if b = 10 then 92 :: 110 :: toText t
    else if b = 59 then 92 :: 59 :: toText t
    else if b = 44 then 92 :: 44 :: toText t
    else b :: toText t

/-- `FromText` is `strings.NewReplacer("\\\\","\\", "\\n","\n", "\\N","\n", "\\;",";", "\\,",",").Replace`.
Every pattern starts with a backslash and is two bytes long; at a position where
no pattern matches one byte is copied. -/
def fromText : GoStr → GoStr
  | [] => []
  | b :: t =>
    if b = 92 then
      match t with
      | 92 :: t' => 92 :: fromText t'
      | 110 :: t' => 10 :: fromText t'
      | 78 :: t' => 10 :: fromText t'
      | 59 :: t' => 59 :: fromText t'
      | 44 :: t' => 44 :: fromText t'
      | t' => 92 :: fromText t'
    else b :: fromText t

theorem fromText_cons_ne {b : Nat} (t : GoStr) (h : b ≠ 92) :
    fromText (b :: t) = b :: fromText t := by
  rw [fromText.eq_def]
  simp [h]

/-- The claim C6: unescaping after escaping is the identity on every string. -/
theorem fromText_toText (s : GoStr) : fromText (toText s) = s := by
  induction s with
  | nil => rfl
  | cons b t ih =>
    by_cases h92 : b = 92
    · subst h92; simp [toText, fromText, ih]
    · by_cases h10 : b = 10
      · subst h10; simp [toText, fromText, ih]
      · by_cases h59 : b = 59
        · subst h59; simp [toText, fromText, ih]
        · by_cases h44 : b = 44
          · subst h44; simp [toText, fromText, ih]
          · simp [toText, h92, h10, h59, h44, fromText_cons_ne _ h92, ih]

/-! ### CalendarStream.ReadLine

The stream is the remaining byte list.  `readLine` mirrors the loop of
`CalendarStream.ReadLine`: `bufio.ReadBytes('\n')` is modelled by `splitAtNl`
(bytes before the first 0x0A, bytes after it; `none` when the stream holds no
newline, in which case all remaining bytes are returned together with `io.EOF`).
The result is `(line option, eof flag, remaining stream)`; a `none` line stands
for the Go `nil, io.EOF` return. -/

/-- First-newline split of a byte stream. -/
def splitAtNl : GoStr → Option (GoStr × GoStr)
  | [] => none
  | b :: t =>
    if b = 10 then some ([], t)
    else
      match splitAtNl t with
      | none => none
      | some (bf, af) => some (b :: bf, af)

theorem splitAtNl_eq {l bf af : GoStr} (h : splitAtNl l = some (bf, af)) :
    l = bf ++ 10 :: af := by
  induction l generalizing bf with
  | nil => simp [splitAtNl] at h
  | cons b t ih =>
    by_cases hb : b = 10
    · subst hb
      simp [splitAtNl] at h
      simp [h.1, h.2]
    · rw [splitAtNl] at h
      simp only [if_neg hb] at h
      match hm : splitAtNl t with
      | none => rw [hm] at h; exact absurd h (by simp)
      | some (bf', af') =>
        rw [hm] at h
        simp at h
        obtain ⟨h1, h2⟩ := h
        subst h1
        subst h2
        simp [ih hm]

/-- One `ReadLine` call: `acc` is the accumulated logical line `r`.  The loop
consumes at least one byte of the stream per iteration, so a fuel of
`input.length + 1` always suffices; the fuel-out branch is unreachable
(`readLineFuel_enough` below). -/
def readLineFuel : Nat → GoStr → GoStr → Option GoStr × Bool × GoStr
  | 0, input, _ => (none, true, input)
  | fuel + 1, input, acc =>
    match splitAtNl input with
    | none =>
      -- ReadBytes found no delimiter: it returns all remaining bytes with
      -- io.EOF, the loop exits, and an empty line becomes `nil, io.EOF`
      if acc ++ input = [] then (none, true, []) else (some (acc ++ input), true, [])
    | some (bf, af) =>
      -- b = bf ++ [10]; o = 2 when the byte before the newline is '\r'
      let core := if bf.getLast? = some 13 then bf.dropLast else bf
      let acc' := acc ++ core
      match af with
      | [] =>
        -- Peek(1) fails with io.EOF so c = false; the outer error is nil and
        -- an empty line restarts the loop, which then ends on the empty stream
        if acc' = [] then (none, true, []) else (some acc', false, [])
      | a :: af' =>
        if a = 32 ∨ a = 9 then
          readLineFuel fuel af' acc'  -- fold continuation: discard the blank, keep reading
        else if acc' = [] then
          readLineFuel fuel af []     -- empty logical line: c is reset to true
        else (some acc', false, af)

/-- `CalendarStream.ReadLine` starting with an empty logical line. -/
def readLine (input : GoStr) : Option GoStr × Bool × GoStr :=
  readLineFuel (input.length + 1) input []

theorem readLineFuel_enough :
    ∀ f1 f2 input acc, input.length < f1 → input.length < f2 →
      readLineFuel f1 input acc = readLineFuel f2 input acc := by
  intro f1
  induction f1 with
  | zero => intro f2 input acc h1 _; omega
  | succ g1 ih =>
    intro f2 input acc h1 h2
    match f2 with
    | 0 => omega
    | g2 + 1 =>
      simp only [readLineFuel]
      match hs : splitAtNl input with
      | none => rfl
      | some (bf, af) =>
        have e := splitAtNl_eq hs
        have hlen : af.length + bf.length + 1 = input.length := by
          rw [e]; simp [List.length_append]; omega
        match af with
        | [] => rfl
        | a :: af' =>
          simp only
          by_cases hsp : a = 32 ∨ a = 9
          · simp only [if_pos hsp]
            apply ih
            · simp at hlen; omega
            · simp at hlen; omega
          · simp only [if_neg hsp]
            by_cases hac : acc ++ (if bf.getLast? = some 13 then bf.dropLast else bf) = []
            · simp only [if_pos hac]
              apply ih
              · simp at hlen ⊢; omega
              · simp at hlen ⊢; omega
            · simp only [if_neg hac]

theorem readLineFuel_some_ne :
    ∀ fuel input acc l e r, readLineFuel fuel input acc = (some l, e, r) → l ≠ [] := by
  intro fuel
  induction fuel with
  | zero => intro input acc l e r h; simp [readLineFuel] at h
  | succ g ih =>
    intro input acc l e r h
    rw [readLineFuel] at h
    match hs : splitAtNl input with
    | none =>
      rw [hs] at h
      by_cases hc : acc ++ input = []
      · simp [hc] at h
      · simp only [if_neg hc, Prod.mk.injEq, Option.some.injEq] at h
        intro hl
        exact hc (by rw [h.1, hl])
    | some (bf, af) =>
      rw [hs] at h
      simp only at h
      match af with
      | [] =>
        by_cases hc : acc ++ (if bf.getLast? = some 13 then bf.dropLast else bf) = []
        · simp [hc] at h
        · simp only [if_neg hc, Prod.mk.injEq, Option.some.injEq] at h
          intro hl
          exact hc (by rw [h.1, hl])
      | a :: af' =>
        simp only at h
        by_cases hsp : a = 32 ∨ a = 9
        · rw [if_pos hsp] at h
          exact ih _ _ _ _ _ h
        · rw [if_neg hsp] at h
          by_cases hc : acc ++ (if bf.getLast? = some 13 then bf.dropLast else bf) = []
          · rw [if_pos hc] at h
            exact ih _ _ _ _ _ h
          · rw [if_neg hc] at h
            simp only [Prod.mk.injEq, Option.some.injEq] at h
            intro hl
            exact hc (by rw [h.1, hl])

/-- The claim C4, amended: `ReadLine` never yields an empty logical line.  An
empty or terminator-only physical line (not followed by a fold blank) is
skipped inside the reader itself, which then returns whatever the remainder of
the stream yields; at end of stream it returns `nil` with `io.EOF`. -/
theorem readLine_skips_empty_lines :
    (∀ rest : GoStr, (∀ a, rest.head? = some a → a ≠ 32 ∧ a ≠ 9) →
        readLine (13 :: 10 :: rest) = readLine rest ∧
        readLine (10 :: rest) = readLine rest) ∧
    (∀ input l e r, readLine input = (some l, e, r) → l ≠ []) := by
  constructor
  · intro rest hhead
    constructor
    · cases rest with
      | nil => rfl
      | cons a af' =>
        have ha := hhead a rfl
        have hcond : ¬(a = 32 ∨ a = 9) := by
          rintro (h | h)
          exacts [ha.1 h, ha.2 h]
        simp only [readLine]
        rw [readLineFuel]
        simp [splitAtNl, hcond]
        exact readLineFuel_enough _ _ _ _ (by simp) (by simp)
    · cases rest with
      | nil => rfl
      | cons a af' =>
        have ha := hhead a rfl
        have hcond : ¬(a = 32 ∨ a = 9) := by
          rintro (h | h)
          exacts [ha.1 h, ha.2 h]
        simp only [readLine]
        rw [readLineFuel]
        simp [splitAtNl, hcond]
  · intro input l e r h
    exact readLineFuel_some_ne _ _ _ _ _ _ h

/-- Witness for `readLine_skips_empty_lines` at a concrete stream. -/
theorem readLine_skips_empty_lines_witness :
    readLine (13 :: 10 :: gs "FOO\r\n") = readLine (gs "FOO\r\n") ∧
    gs "FOO" ≠ [] := by
  refine ⟨(readLine_skips_empty_lines.1 (gs "FOO\r\n") ?_).1, by decide⟩
  intro a ha
  simp [gs] at ha
  omega

/-! ### The data model

`BaseProperty` carries an IANA token, the parameter map and the value.  The Go
map `ICalParameters map[string][]string` is modelled as an association list
with (in every state the program produces) pairwise distinct keys. -/

structure BaseProperty where
  token : GoStr
  params : List (GoStr × List GoStr)
  value : GoStr
deriving Repr, DecidableEq

/-- `SerializationConfiguration` of the source; `propertyMaxLength` is carried
but not read by `BaseProperty.serialize`. -/
structure SerializationConfiguration where
  maxLength : Nat
  newLine : GoStr
  propertyMaxLength : Nat
deriving Repr, DecidableEq

/-- Go map indexing `bp.ICalParameters[k]`: first entry with the key (keys are
unique in a Go map), zero value `[]` when absent. -/
def lookupParam : List (GoStr × List GoStr) → GoStr → Option (List GoStr)
  | [], _ => none
  | (k', v) :: t, k => if k' = k then some v else lookupParam t k

/-! ### Sorting of parameter keys (`sort.Strings`)

Go sorts the collected map keys in ascending lexicographic byte order. -/

/-- Lexicographic byte-order comparison of Go strings (`s1 <= s2`). -/
def lexLe : GoStr → GoStr → Bool
  | [], _ => true
  | _ :: _, [] => false
  | a :: as, b :: bs => if a < b then true else if b < a then false else lexLe as bs

/-- The ordering relation used to sort parameter keys. -/
def RKey : GoStr → GoStr → Prop := fun a b => lexLe a b = true

instance : DecidableRel RKey := fun a b => inferInstanceAs (Decidable (lexLe a b = true))

theorem lexLe_total : ∀ a b : GoStr, lexLe a b = true ∨ lexLe b a = true := by
  intro a
  induction a with
  | nil => intro b; left; rfl
  | cons x xs ih =>
    intro b
    cases b with
    | nil => right; rfl
    | cons y ys =>
      by_cases hxy : x < y
      · left; simp [lexLe, hxy]
      · by_cases hyx : y < x
        · right; simp [lexLe, hyx]
        · have hx : x = y := by omega
          subst hx
          rcases ih ys with h | h
          · left; simp [lexLe, h]
          · right; simp [lexLe, h]

theorem lexLe_trans : ∀ a b c : GoStr, lexLe a b = true → lexLe b c = true →
    lexLe a c = true := by
  intro a
  induction a with
  | nil => intro b c _ _; rfl
  | cons x xs ih =>
    intro b c hab hbc
    cases b with
    | nil => simp [lexLe] at hab
    | cons y ys =>
      cases c with
      | nil => simp [lexLe] at hbc
      | cons z zs =>
        rw [lexLe] at hab hbc ⊢
        rcases Nat.lt_trichotomy x y with hxy | hxy | hxy
        · rcases Nat.lt_trichotomy y z with hyz | hyz | hyz
          · rw [if_pos (show x < z by omega)]
          · subst hyz
            rw [if_pos hxy]
          · rw [if_neg (by omega), if_pos hyz] at hbc
            exact absurd hbc (by simp)
        · subst hxy
          rw [if_neg (by omega), if_neg (by omega)] at hab
          rcases Nat.lt_trichotomy x z with hxz | hxz | hxz
          · rw [if_pos hxz]
          · subst hxz
            rw [if_neg (by omega), if_neg (by omega)] at hbc ⊢
            exact ih _ _ hab hbc
          · rw [if_neg (by omega), if_pos hxz] at hbc
            exact absurd hbc (by simp)
        · rw [if_neg (by omega), if_pos hxy] at hab
          exact absurd hab (by simp)

theorem lexLe_antisymm : ∀ a b : GoStr, lexLe a b = true → lexLe b a = true →
    a = b := by
  intro a
  induction a with
  | nil =>
    intro b _ hba
    cases b with
    | nil => rfl
    | cons y ys => simp [lexLe] at hba
  | cons x xs ih =>
    intro b hab hba
    cases b with
    | nil => simp [lexLe] at hab
    | cons y ys =>
      rw [lexLe] at hab hba
      by_cases hxy : x < y
      · simp [show ¬(y < x) by omega, hxy] at hba
      · by_cases hyx : y < x
        · simp [hyx, show ¬(x < y) by omega] at hab
        · have : x = y := by omega
          subst this
          rw [if_neg (by omega), if_neg (by omega)] at hab hba
          rw [ih _ hab hba]

instance : IsTotal GoStr RKey := ⟨lexLe_total⟩

instance : IsTrans GoStr RKey := ⟨lexLe_trans⟩

instance : IsAntisymm GoStr RKey := ⟨lexLe_antisymm⟩

/-- The key order the serializer iterates over: the parameter keys sorted
ascending (`sort.Strings(keys)`). -/
def sortedParamKeys (ps : List (GoStr × List GoStr)) : List GoStr :=
  List.insertionSort RKey (ps.map Prod.fst)

/-! ### Parameter value rendering -/

/-- `Parameter.IsQuoted`: ALTREP is the only quoted parameter. -/
def paramIsQuoted (k : GoStr) : Bool := k = gs "ALTREP"

/-- `escapeValueString`: backslash-escape `,` `"` `;` `:` `\` `'`. -/
def escapeValueString : GoStr → GoStr
  | [] => []
  | b :: t =>
    if b = 44 ∨ b = 34 ∨ b = 59 ∨ b = 58 ∨ b = 92 ∨ b = 39 then
      92 :: b :: escapeValueString t
    else b :: escapeValueString t

/-- Inner escaping of `quotedValueString`: backslash-escape `"` and `\`. -/
def quoteEsc : GoStr → GoStr
  | [] => []
  | b :: t =>
    if b = 34 ∨ b = 92 then 92 :: b :: quoteEsc t else b :: quoteEsc t

/-- `quotedValueString`: the escaped value wrapped in double quotes. -/
def quotedValueString (v : GoStr) : GoStr := 34 :: (quoteEsc v ++ [34])

/-! ### `BaseProperty.GetValueType` -/

/-- The per-property-name default table of `GetValueType` (the `switch` on the
IANA token; `default` falls through to TEXT). -/
def defaultValueType (tok : GoStr) : GoStr :=
  if tok = gs "ATTACH" ∨ tok = gs "TZURL" ∨ tok = gs "URL" then gs "URI"
  else if tok = gs "GEO" then gs "FLOAT"
  else if tok = gs "PERCENT-COMPLETE" ∨ tok = gs "PRIORITY" ∨ tok = gs "REPEAT" ∨
      tok = gs "SEQUENCE" then gs "INTEGER"
  else if tok = gs "COMPLETED" ∨ tok = gs "DTEND" ∨ tok = gs "DUE" ∨
      tok = gs "DTSTART" ∨ tok = gs "RECURRENCE-ID" ∨ tok = gs "EXDATE" ∨
      tok = gs "RDATE" ∨ tok = gs "CREATED" ∨ tok = gs "DTSTAMP" ∨
      tok = gs "LAST-MODIFIED" then gs "DATE-TIME"
  else if tok = gs "DURATION" ∨ tok = gs "TRIGGER" then gs "DURATION"
  else if tok = gs "FREEBUSY" then gs "PERIOD"
  else if tok = gs "TZOFFSETFROM" ∨ tok = gs "TZOFFSETTO" then gs "UTC-OFFSET"
  else if tok = gs "ATTENDEE" ∨ tok = gs "ORGANIZER" then gs "CAL-ADDRESS"
  else if tok = gs "RRULE" then gs "RECUR"
  else gs "TEXT"

/-- `GetValueType`: an explicit `VALUE` parameter with exactly one value wins,
otherwise the default table applies. -/
def getValueType (bp : BaseProperty) : GoStr :=
  match lookupParam bp.params (gs "VALUE") with
  | some [v] => v
  | _ => defaultValueType bp.token

/-! ### UTF-8 (`unicode/utf8`)

`utf8DecodeRune` mirrors `utf8.DecodeRuneInString` (error and overlong /
surrogate rejection included; masked bit arithmetic is written as subtraction,
valid under the accompanying range guards).  `runeLen` is `utf8.RuneLen`. -/

def runeError : Nat := 0xFFFD

def utf8DecodeRune (l : GoStr) : Nat × Nat :=
  match l with
  | [] => (runeError, 0)
  | b0 :: rest =>
    if b0 < 0x80 then (b0, 1)
    else if b0 < 0xC2 then (runeError, 1)
    else if b0 ≤ 0xDF then
      match rest with
      | b1 :: _ =>
        if 0x80 ≤ b1 ∧ b1 ≤ 0xBF then ((b0 - 0xC0) * 64 + (b1 - 0x80), 2)
        else (runeError, 1)
      | [] => (runeError, 1)
    else if b0 ≤ 0xEF then
      match rest with
      | b1 :: b2 :: _ =>
        if (if b0 = 0xE0 then 0xA0 ≤ b1 ∧ b1 ≤ 0xBF
            else if b0 = 0xED then 0x80 ≤ b1 ∧ b1 ≤ 0x9F
            else 0x80 ≤ b1 ∧ b1 ≤ 0xBF) ∧ 0x80 ≤ b2 ∧ b2 ≤ 0xBF then
          ((b0 - 0xE0) * 4096 + (b1 - 0x80) * 64 + (b2 - 0x80), 3)
        else (runeError, 1)
      | _ => (runeError, 1)
    else if b0 ≤ 0xF4 then
      match rest with
      | b1 :: b2 :: b3 :: _ =>
        if (if b0 = 0xF0 then 0x90 ≤ b1 ∧ b1 ≤ 0xBF
            else if b0 = 0xF4 then 0x80 ≤ b1 ∧ b1 ≤ 0x8F
            else 0x80 ≤ b1 ∧ b1 ≤ 0xBF) ∧ 0x80 ≤ b2 ∧ b2 ≤ 0xBF ∧
            0x80 ≤ b3 ∧ b3 ≤ 0xBF then
          ((b0 - 0xF0) * 262144 + (b1 - 0x80) * 4096 + (b2 - 0x80) * 64 + (b3 - 0x80), 4)
        else (runeError, 1)
      | _ => (runeError, 1)
    else (runeError, 1)

def runeLen (r : Nat) : Int :=
  if r < 0x80 then 1
  else if r < 0x800 then 2
  else if 0xD800 ≤ r ∧ r ≤ 0xDFFF then -1
  else if r < 0x10000 then 3
  else if r ≤ 0x10FFFF then 4
  else -1

/-! ### `trimUT8StringUpTo`

The `for i, r := range s` loop; the loop consumes at least one byte of `s` per
iteration, so a fuel of `s.length` always suffices. -/

def trimLoopFuel (max : Nat) :
    Nat → GoStr → Nat → Int → Int → Nat → Int × Int
  | 0, _, _, length, lastWB, _ => (length, lastWB)
  | fuel + 1, rem, i, length, lastWB, lastRune =>
    match rem with
    | [] => (length, lastWB)
    | _ :: _ =>
      let d := utf8DecodeRune rem
      let lastWB' := if d.1 = 32 ∨ d.1 = 60 then (i : Int)
                     else if lastRune = 62 then (i : Int) else lastWB
      let newLength := length + runeLen d.1
      if newLength > (max : Int) then (length, lastWB')
      else trimLoopFuel max fuel (rem.drop d.2) (i + d.2) newLength lastWB' d.1

def trimUT8StringUpTo (maxLength : Nat) (s : GoStr) : GoStr :=
  let out := trimLoopFuel maxLength s.length s 0 0 (-1) 0
  if out.2 > 0 then s.take out.2.toNat else s.take out.1.toNat


theorem utf8_two_byte_range (b0 b1 : Nat) (h0 : ¬b0 < 194) (h1 : b0 ≤ 223)
    (hc : 128 ≤ b1 ∧ b1 ≤ 191) :
    128 ≤ (b0 - 192) * 64 + (b1 - 128) ∧ (b0 - 192) * 64 + (b1 - 128) < 2048 := by
  omega

theorem utf8_three_byte_range (b0 b1 b2 : Nat) (h0 : ¬b0 ≤ 223) (h1 : b0 ≤ 239)
    (hc : (if b0 = 224 then 160 ≤ b1 ∧ b1 ≤ 191
           else if b0 = 237 then 128 ≤ b1 ∧ b1 ≤ 159
           else 128 ≤ b1 ∧ b1 ≤ 191) ∧ 128 ≤ b2 ∧ b2 ≤ 191) :
    2048 ≤ (b0 - 224) * 4096 + (b1 - 128) * 64 + (b2 - 128) ∧
    (b0 - 224) * 4096 + (b1 - 128) * 64 + (b2 - 128) < 65536 ∧
    ¬(55296 ≤ (b0 - 224) * 4096 + (b1 - 128) * 64 + (b2 - 128) ∧
      (b0 - 224) * 4096 + (b1 - 128) * 64 + (b2 - 128) ≤ 57343) := by
  by_cases he0 : b0 = 224
  · rw [if_pos he0] at hc
    subst he0
    omega
  · by_cases he1 : b0 = 237
    · rw [if_neg he0, if_pos he1] at hc
      subst he1
      omega
    · rw [if_neg he0, if_neg he1] at hc
      omega

theorem utf8_four_byte_range (b0 b1 b2 b3 : Nat) (h0 : ¬b0 ≤ 239) (h1 : b0 ≤ 244)
    (hc : (if b0 = 240 then 144 ≤ b1 ∧ b1 ≤ 191
           else if b0 = 244 then 128 ≤ b1 ∧ b1 ≤ 143
           else 128 ≤ b1 ∧ b1 ≤ 191) ∧ 128 ≤ b2 ∧ b2 ≤ 191 ∧ 128 ≤ b3 ∧ b3 ≤ 191) :
    65536 ≤ (b0 - 240) * 262144 + (b1 - 128) * 4096 + (b2 - 128) * 64 + (b3 - 128) ∧
    (b0 - 240) * 262144 + (b1 - 128) * 4096 + (b2 - 128) * 64 + (b3 - 128) ≤ 1114111 := by
  by_cases he0 : b0 = 240
  · rw [if_pos he0] at hc
    subst he0
    omega
  · by_cases he1 : b0 = 244
    · rw [if_neg he0, if_pos he1] at hc
      subst he1
      omega
    · rw [if_neg he0, if_neg he1] at hc
      omega

/-- Case analysis of `utf8.DecodeRuneInString` on a nonempty input: ASCII,
decode error, or a well-formed 2-, 3- or 4-byte scalar in its value range. -/
theorem utf8DecodeRune_cases (l : GoStr) (hl : l ≠ []) :
    (∃ v, utf8DecodeRune l = (v, 1) ∧ v < 128) ∨
    utf8DecodeRune l = (runeError, 1) ∨
    (∃ v, utf8DecodeRune l = (v, 2) ∧ 128 ≤ v ∧ v < 2048) ∨
    (∃ v, utf8DecodeRune l = (v, 3) ∧ 2048 ≤ v ∧ v < 65536 ∧
      ¬(55296 ≤ v ∧ v ≤ 57343)) ∨
    (∃ v, utf8DecodeRune l = (v, 4) ∧ 65536 ≤ v ∧ v ≤ 1114111) := by
  match l with
  | b0 :: rest =>
    by_cases h1 : b0 < 128
    · refine Or.inl ⟨b0, ?_, h1⟩
      rcases rest with _ | ⟨b1, _ | ⟨b2, _ | ⟨b3, rest2⟩⟩⟩ <;>
        · rw [utf8DecodeRune.eq_def]; dsimp only; rw [if_pos h1]
    · by_cases h2 : b0 < 194
      · refine Or.inr (Or.inl ?_)
        rcases rest with _ | ⟨b1, _ | ⟨b2, _ | ⟨b3, rest2⟩⟩⟩ <;>
          · rw [utf8DecodeRune.eq_def]; dsimp only; rw [if_neg h1, if_pos h2]
      · by_cases h3 : b0 ≤ 223
        · -- two-byte lead
          rcases rest with _ | ⟨b1, rest1⟩
          · refine Or.inr (Or.inl ?_)
            rw [utf8DecodeRune.eq_def]; dsimp only; rw [if_neg h1, if_neg h2, if_pos h3]
          · by_cases hc : 128 ≤ b1 ∧ b1 ≤ 191
            · refine Or.inr (Or.inr (Or.inl ⟨_, ?_, utf8_two_byte_range b0 b1 h2 h3 hc⟩))
              rw [utf8DecodeRune.eq_def]; dsimp only
              rw [if_neg h1, if_neg h2, if_pos h3, if_pos hc]
            · refine Or.inr (Or.inl ?_)
              rw [utf8DecodeRune.eq_def]; dsimp only
              rw [if_neg h1, if_neg h2, if_pos h3, if_neg hc]
        · by_cases h4 : b0 ≤ 239
          · -- three-byte lead
            rcases rest with _ | ⟨b1, _ | ⟨b2, rest2⟩⟩
            · refine Or.inr (Or.inl ?_)
              rw [utf8DecodeRune.eq_def]; dsimp only
              rw [if_neg h1, if_neg h2, if_neg h3, if_pos h4]
            · refine Or.inr (Or.inl ?_)
              rw [utf8DecodeRune.eq_def]; dsimp only
              rw [if_neg h1, if_neg h2, if_neg h3, if_pos h4]
            · by_cases hc : (if b0 = 224 then 160 ≤ b1 ∧ b1 ≤ 191
                  else if b0 = 237 then 128 ≤ b1 ∧ b1 ≤ 159
                  else 128 ≤ b1 ∧ b1 ≤ 191) ∧ 128 ≤ b2 ∧ b2 ≤ 191
              · refine Or.inr (Or.inr (Or.inr (Or.inl ⟨_, ?_,
                  (utf8_three_byte_range b0 b1 b2 h3 h4 hc).1,
                  (utf8_three_byte_range b0 b1 b2 h3 h4 hc).2.1,
                  (utf8_three_byte_range b0 b1 b2 h3 h4 hc).2.2⟩)))
                rw [utf8DecodeRune.eq_def]; dsimp only
                rw [if_neg h1, if_neg h2, if_neg h3, if_pos h4, if_pos hc]
              · refine Or.inr (Or.inl ?_)
                rw [utf8DecodeRune.eq_def]; dsimp only
                rw [if_neg h1, if_neg h2, if_neg h3, if_pos h4, if_neg hc]
          · by_cases h5 : b0 ≤ 244
            · -- four-byte lead
              rcases rest with _ | ⟨b1, _ | ⟨b2, _ | ⟨b3, rest3⟩⟩⟩
              · refine Or.inr (Or.inl ?_)
                rw [utf8DecodeRune.eq_def]; dsimp only
                rw [if_neg h1, if_neg h2, if_neg h3, if_neg h4, if_pos h5]
              · refine Or.inr (Or.inl ?_)
                rw [utf8DecodeRune.eq_def]; dsimp only
                rw [if_neg h1, if_neg h2, if_neg h3, if_neg h4, if_pos h5]
              · refine Or.inr (Or.inl ?_)
                rw [utf8DecodeRune.eq_def]; dsimp only
                rw [if_neg h1, if_neg h2, if_neg h3, if_neg h4, if_pos h5]
              · by_cases hc : (if b0 = 240 then 144 ≤ b1 ∧ b1 ≤ 191
                    else if b0 = 244 then 128 ≤ b1 ∧ b1 ≤ 143
                    else 128 ≤ b1 ∧ b1 ≤ 191) ∧ 128 ≤ b2 ∧ b2 ≤ 191 ∧
                    128 ≤ b3 ∧ b3 ≤ 191
                · refine Or.inr (Or.inr (Or.inr (Or.inr ⟨_, ?_,
                    (utf8_four_byte_range b0 b1 b2 b3 h4 h5 hc).1,
                    (utf8_four_byte_range b0 b1 b2 b3 h4 h5 hc).2⟩)))
                  rw [utf8DecodeRune.eq_def]; dsimp only
                  rw [if_neg h1, if_neg h2, if_neg h3, if_neg h4, if_pos h5, if_pos hc]
                · refine Or.inr (Or.inl ?_)
                  rw [utf8DecodeRune.eq_def]; dsimp only
                  rw [if_neg h1, if_neg h2, if_neg h3, if_neg h4, if_pos h5, if_neg hc]
            · refine Or.inr (Or.inl ?_)
              rcases rest with _ | ⟨b1, _ | ⟨b2, _ | ⟨b3, rest2⟩⟩⟩ <;>
                · rw [utf8DecodeRune.eq_def]; dsimp only
                  rw [if_neg h1, if_neg h2, if_neg h3, if_neg h4, if_neg h5]

/-- Size and rune-length bounds of a decode step on a nonempty input. -/
theorem utf8DecodeRune_bounds (l : GoStr) (hl : l ≠ []) :
    1 ≤ (utf8DecodeRune l).2 ∧ (utf8DecodeRune l).2 ≤ 4 ∧
    1 ≤ runeLen (utf8DecodeRune l).1 ∧ runeLen (utf8DecodeRune l).1 ≤ 4 ∧
    ((utf8DecodeRune l).2 : Int) ≤ runeLen (utf8DecodeRune l).1 := by
  rcases utf8DecodeRune_cases l hl with ⟨v, hv, h⟩ | hv | ⟨v, hv, ha, hb⟩ |
      ⟨v, hv, ha, hb, hc⟩ | ⟨v, hv, ha, hb⟩ <;>
    rw [hv] <;> simp only [runeLen, runeError] <;> split_ifs <;> omega


/-- Loop invariant of `trimUT8StringUpTo`: the byte offset never exceeds the
accumulated length, the accumulated length never exceeds the budget, and the
word-boundary marker never exceeds the accumulated length; the accumulated
length only grows. -/
theorem trimLoopFuel_invariant (m : Nat) :
    ∀ fuel rem (i : Nat) (length lastWB : Int) (lastRune : Nat),
      (i : Int) ≤ length → length ≤ (m : Int) → lastWB ≤ length →
      length ≤ (trimLoopFuel m fuel rem i length lastWB lastRune).1 ∧
      (trimLoopFuel m fuel rem i length lastWB lastRune).1 ≤ (m : Int) ∧
      (trimLoopFuel m fuel rem i length lastWB lastRune).2 ≤
        (trimLoopFuel m fuel rem i length lastWB lastRune).1 := by
  intro fuel
  induction fuel with
  | zero =>
    intro rem i length lastWB lastRune h1 h2 h3
    exact ⟨le_refl _, h2, h3⟩
  | succ g ih =>
    intro rem i length lastWB lastRune h1 h2 h3
    match rem with
    | [] => exact ⟨le_refl _, h2, h3⟩
    | b :: t =>
      rw [trimLoopFuel]
      have hb := utf8DecodeRune_bounds (b :: t) (by simp)
      have hwb' : (if (utf8DecodeRune (b :: t)).1 = 32 ∨ (utf8DecodeRune (b :: t)).1 = 60
          then (i : Int) else if lastRune = 62 then (i : Int) else lastWB) ≤ length := by
        split_ifs <;> [exact h1; exact h1; exact h3]
      by_cases hbr : length + runeLen (utf8DecodeRune (b :: t)).1 > (m : Int)
      · rw [if_pos hbr]
        exact ⟨le_refl _, h2, hwb'⟩
      · rw [if_neg hbr]
        have hrec := ih ((b :: t).drop (utf8DecodeRune (b :: t)).2)
          (i + (utf8DecodeRune (b :: t)).2)
          (length + runeLen (utf8DecodeRune (b :: t)).1)
          (if (utf8DecodeRune (b :: t)).1 = 32 ∨ (utf8DecodeRune (b :: t)).1 = 60
            then (i : Int) else if lastRune = 62 then (i : Int) else lastWB)
          (utf8DecodeRune (b :: t)).1
          (by push_cast; omega) (by omega) (by omega)
        exact ⟨le_trans (by omega) hrec.1, hrec.2.1, hrec.2.2⟩

/-- `trimUT8StringUpTo` never returns more than `m` bytes. -/
theorem trimUT8StringUpTo_length_le (m : Nat) (s : GoStr) :
    (trimUT8StringUpTo m s).length ≤ m := by
  unfold trimUT8StringUpTo
  have h := trimLoopFuel_invariant m s.length s 0 0 (-1) 0 (by norm_num)
    (by positivity) (by norm_num)
  by_cases hpos : (trimLoopFuel m s.length s 0 0 (-1) 0).2 > 0
  · rw [if_pos hpos]
    have : (trimLoopFuel m s.length s 0 0 (-1) 0).2.toNat ≤ m := by omega
    calc (s.take (trimLoopFuel m s.length s 0 0 (-1) 0).2.toNat).length
        ≤ (trimLoopFuel m s.length s 0 0 (-1) 0).2.toNat := by
          simp [List.length_take]
      _ ≤ m := this
  · rw [if_neg hpos]
    have : (trimLoopFuel m s.length s 0 0 (-1) 0).1.toNat ≤ m := by omega
    calc (s.take (trimLoopFuel m s.length s 0 0 (-1) 0).1.toNat).length
        ≤ (trimLoopFuel m s.length s 0 0 (-1) 0).1.toNat := by
          simp [List.length_take]
      _ ≤ m := this

/-- Lower bound on the accumulated length after the loop, in `toNat` form. -/
theorem trimLoopFuel_toNat_ge (m fuel : Nat) (rem : GoStr) (i : Nat)
    (length lastWB : Int) (lastRune : Nat) (h1 : (i : Int) ≤ length)
    (h2 : length ≤ (m : Int)) (h3 : lastWB ≤ length) (h4 : 1 ≤ length) :
    1 ≤ (trimLoopFuel m fuel rem i length lastWB lastRune).1.toNat := by
  have h := trimLoopFuel_invariant m fuel rem i length lastWB lastRune h1 h2 h3
  omega

/-- Either branch of the final `take` of `trimUT8StringUpTo` is nonempty when
the accumulated length is positive. -/
theorem take_branch_ne (s : GoStr) (hs : s ≠ []) (out : Int × Int)
    (h1 : 1 ≤ out.1) :
    (if out.2 > 0 then s.take out.2.toNat else s.take out.1.toNat) ≠ [] := by
  split
  · next hpos =>
    simp only [ne_eq, List.take_eq_nil_iff]
    push_neg
    exact ⟨by omega, hs⟩
  · next hpos =>
    simp only [ne_eq, List.take_eq_nil_iff]
    push_neg
    exact ⟨by omega, hs⟩

/-- With a budget of at least 4 bytes (one UTF-8 rune, also the `RuneError`
length 3) the trimmed prefix of a nonempty string is nonempty. -/
theorem trimUT8StringUpTo_ne_nil (m : Nat) (s : GoStr) (hm : 4 ≤ m)
    (hs : s ≠ []) : trimUT8StringUpTo m s ≠ [] := by
  match s with
  | b :: t =>
    unfold trimUT8StringUpTo
    rw [show (b :: t).length = t.length + 1 from rfl, trimLoopFuel]
    have hb := utf8DecodeRune_bounds (b :: t) (by simp)
    have hbr : ¬(0 + runeLen (utf8DecodeRune (b :: t)).1 > (m : Int)) := by omega
    rw [if_neg hbr]
    refine take_branch_ne (b :: t) (by simp) _
      (le_trans ?_ (trimLoopFuel_invariant _ _ _ _ _ _ _ ?_ ?_ ?_).1)
    · omega
    · push_cast; omega
    · omega
    · split_ifs <;> omega

/-! ### `BaseProperty.serialize` -/

/-- One `;KEY=v1,v2,...` parameter group of the serialized property. -/
def serializeParam (k : GoStr) (vs : List GoStr) : GoStr :=
  59 :: (k ++ [61] ++
    List.intercalate [44]
      (vs.map (fun v => if paramIsQuoted k then quotedValueString v else escapeValueString v)))

/-- The fully assembled logical content line of a property (the buffer `b`
before folding): token, each parameter in sorted key order, `:`, and the value
(TEXT values re-escaped). -/
def assembleProperty (bp : BaseProperty) : GoStr :=
  bp.token ++
  ((sortedParamKeys bp.params).map
    (fun k => serializeParam k ((lookupParam bp.params k).getD []))).flatten ++
  58 :: (if getValueType bp = gs "TEXT" then toText bp.value else bp.value)

/-- The folding loop `for len(r) > MaxLength-1`, producing the continuation
chunks and the final remainder; each iteration removes at least one byte when
the budget `m1` is at least 4, so a fuel of `r.length` suffices (`none` models
a loop that would not terminate). -/
def foldChunks (m1 : Nat) : Nat → GoStr → Option (List GoStr × GoStr)
  | fuel, r =>
    if r.length > m1 then
      match fuel with
      | 0 => none
      | fuel + 1 =>
        let l := trimUT8StringUpTo m1 r
        match foldChunks m1 fuel (r.drop l.length) with
        | none => none
        | some (mids, fin) => some (l :: mids, fin)
    else some ([], r)

/-- `BaseProperty.serialize` writing to a pure buffer: the assembled line is
emitted directly when it fits, otherwise the first `MaxLength`-budget chunk is
emitted, every further chunk is emitted behind a single fold blank with budget
`MaxLength-1`, and the remainder follows behind a final fold blank. -/
def serializeBaseProperty (bp : BaseProperty) (cfg : SerializationConfiguration) :
    Option GoStr :=
  let r := assembleProperty bp
  if r.length > cfg.maxLength then
    let l := trimUT8StringUpTo cfg.maxLength r
    let rest := r.drop l.length
    match foldChunks (cfg.maxLength - 1) rest.length rest with
    | none => none
    | some (mids, fin) =>
      some (l ++ cfg.newLine ++ (mids.map (fun c => 32 :: (c ++ cfg.newLine))).flatten
            ++ 32 :: (fin ++ cfg.newLine))
  else some (r ++ cfg.newLine)

/-- The folding loop always completes within `r.length` iterations when the
continuation budget holds at least one UTF-8 rune. -/
theorem foldChunks_isSome (m1 : Nat) (hm : 4 ≤ m1) :
    ∀ fuel r, r.length ≤ fuel → (foldChunks m1 fuel r).isSome = true := by
  intro fuel
  induction fuel with
  | zero =>
    intro r h
    have : ¬(r.length > m1) := by omega
    simp [foldChunks, this]
  | succ g ih =>
    intro r h
    rw [foldChunks]
    by_cases hlong : r.length > m1
    · rw [if_pos hlong]
      dsimp only
      have hne := trimUT8StringUpTo_ne_nil m1 r hm (by intro h0; rw [h0] at hlong; simp at hlong)
      have hlen1 : 1 ≤ (trimUT8StringUpTo m1 r).length := List.length_pos.mpr hne
      have hdrop : (r.drop (trimUT8StringUpTo m1 r).length).length ≤ g := by
        simp [List.length_drop]; omega
      have hsome := ih _ hdrop
      match hfc : foldChunks m1 g (r.drop (trimUT8StringUpTo m1 r).length) with
      | none => rw [hfc] at hsome; simp at hsome
      | some (mids, fin) => rfl
    · rw [if_neg hlong]; rfl

/-- The claim C10: with `MaxLength` at least 5, `BaseProperty.serialize`
terminates — every folding iteration removes at least one byte, so the fueled
loop completes. -/
theorem serializeBaseProperty_terminates (bp : BaseProperty)
    (cfg : SerializationConfiguration) (h5 : 5 ≤ cfg.maxLength) :
    (serializeBaseProperty bp cfg).isSome = true := by
  unfold serializeBaseProperty
  dsimp only
  by_cases hlong : (assembleProperty bp).length > cfg.maxLength
  · rw [if_pos hlong]
    have hs := foldChunks_isSome (cfg.maxLength - 1) (by omega) _
      ((assembleProperty bp).drop
        (trimUT8StringUpTo cfg.maxLength (assembleProperty bp)).length) (le_refl _)
    match hfc : foldChunks (cfg.maxLength - 1)
        ((assembleProperty bp).drop
          (trimUT8StringUpTo cfg.maxLength (assembleProperty bp)).length).length
        ((assembleProperty bp).drop
          (trimUT8StringUpTo cfg.maxLength (assembleProperty bp)).length) with
    | none => rw [hfc] at hs; simp at hs
    | some (mids, fin) => rfl
  · rw [if_neg hlong]; rfl

/-- The default configuration: 75-octet lines, CRLF. -/
def cfg75crlf : SerializationConfiguration := ⟨75, [13, 10], 75⟩

/-- Witness for `serializeBaseProperty_terminates` on a property whose
assembled line is 112 bytes long. -/
theorem serializeBaseProperty_terminates_witness :
    5 ≤ cfg75crlf.maxLength ∧
    (serializeBaseProperty
      ⟨gs "DESCRIPTION",
       [],
       gs "0123456789012345678901234567890123456789012345678901234567890123456789012345678901234567890123456789"⟩
      cfg75crlf).isSome = true := by
  refine ⟨by decide, serializeBaseProperty_terminates _ _ (by decide)⟩

/-- Go map lookup is invariant under reordering of the association list when
the keys are pairwise distinct (as they are in a Go map). -/
theorem lookupParam_perm : ∀ {ps1 ps2 : List (GoStr × List GoStr)}, ps1.Perm ps2 →
    (ps1.map Prod.fst).Nodup → ∀ k, lookupParam ps1 k = lookupParam ps2 k := by
  intro ps1 ps2 hperm
  induction hperm with
  | nil => intro _ k; rfl
  | cons x h ih =>
    intro hnodup k
    obtain ⟨kx, vx⟩ := x
    rw [lookupParam, lookupParam]
    by_cases hk : kx = k
    · rw [if_pos hk, if_pos hk]
    · rw [if_neg hk, if_neg hk]
      refine ih ?_ k
      simp at hnodup
      exact hnodup.2
  | swap x y l =>
    intro hnodup k
    obtain ⟨kx, vx⟩ := x
    obtain ⟨ky, vy⟩ := y
    have hxy : ky ≠ kx := by
      simp at hnodup
      exact hnodup.1.1
    rw [lookupParam, lookupParam, lookupParam, lookupParam]
    by_cases h1 : ky = k <;> by_cases h2 : kx = k
    · exact absurd (h1.trans h2.symm) hxy
    · rw [if_pos h1, if_neg h2, if_pos h1]
    · rw [if_neg h1, if_pos h2, if_pos h2]
    · rw [if_neg h1, if_neg h2, if_neg h2, if_neg h1]
  | trans h1 h2 ih1 ih2 =>
    intro hnodup k
    have hnodup2 := ((h1.map Prod.fst).nodup_iff).mp hnodup
    rw [ih1 hnodup k, ih2 hnodup2 k]

/-- The sorted key sequence only depends on the multiset of keys. -/
theorem sortedParamKeys_perm {ps1 ps2 : List (GoStr × List GoStr)}
    (hperm : ps1.Perm ps2) : sortedParamKeys ps1 = sortedParamKeys ps2 := by
  have hp : (sortedParamKeys ps1).Perm (sortedParamKeys ps2) :=
    (List.perm_insertionSort RKey _).trans
      ((hperm.map Prod.fst).trans (List.perm_insertionSort RKey _).symm)
  exact List.eq_of_perm_of_sorted hp (List.sorted_insertionSort RKey _)
    (List.sorted_insertionSort RKey _)

/-- The claim C9: the serialized property lists its parameters in ascending
sorted key order, so any two association-list orders of the same parameter map
(distinct keys, as in a Go map) serialize to identical bytes. -/
theorem serializeBaseProperty_params_sorted (tok val : GoStr)
    (cfg : SerializationConfiguration) (ps1 ps2 : List (GoStr × List GoStr))
    (hperm : ps1.Perm ps2) (hnodup : (ps1.map Prod.fst).Nodup) :
    serializeBaseProperty ⟨tok, ps1, val⟩ cfg =
      serializeBaseProperty ⟨tok, ps2, val⟩ cfg ∧
    List.Sorted RKey (sortedParamKeys ps1) := by
  have hkeys := sortedParamKeys_perm hperm
  have hlook := lookupParam_perm hperm hnodup
  have hassemble : assembleProperty ⟨tok, ps1, val⟩ = assembleProperty ⟨tok, ps2, val⟩ := by
    unfold assembleProperty getValueType
    simp only [hkeys, hlook]
  refine ⟨?_, List.sorted_insertionSort RKey _⟩
  unfold serializeBaseProperty
  simp only [hassemble]

/-- Witness for `serializeBaseProperty_params_sorted` at a concrete two-entry
parameter map given in both orders. -/
theorem serializeBaseProperty_params_sorted_witness :
    serializeBaseProperty ⟨gs "X", [(gs "B", [gs "1"]), (gs "A", [gs "2"])], gs "v"⟩ cfg75crlf =
      serializeBaseProperty ⟨gs "X", [(gs "A", [gs "2"]), (gs "B", [gs "1"])], gs "v"⟩ cfg75crlf ∧
    List.Sorted RKey (sortedParamKeys [(gs "B", [gs "1"]), (gs "A", [gs "2"])]) :=
  serializeBaseProperty_params_sorted (gs "X") (gs "v") cfg75crlf _ _
    (List.Perm.swap _ _ _) (by decide)

/-! ### UTF-8 encoding and validity -/

/-- Standard UTF-8 encoding of a scalar value. -/
def utf8Encode (c : Nat) : GoStr :=
  if c < 0x80 then [c]
  else if c < 0x800 then [0xC0 + c / 64, 0x80 + c % 64]
  else if c < 0x10000 then [0xE0 + c / 4096, 0x80 + c / 64 % 64, 0x80 + c % 64]
  else [0xF0 + c / 262144, 0x80 + c / 4096 % 64, 0x80 + c / 64 % 64, 0x80 + c % 64]

/-- A Unicode scalar value (code point that is not a surrogate). -/
def IsScalar (c : Nat) : Prop := c ≤ 0x10FFFF ∧ ¬(0xD800 ≤ c ∧ c ≤ 0xDFFF)

def utf8EncodeAll (cs : List Nat) : GoStr := (cs.map utf8Encode).flatten

/-- A byte string is valid UTF-8 when it is the encoding of a scalar sequence. -/
def ValidUTF8 (s : GoStr) : Prop :=
  ∃ cs, (∀ c ∈ cs, IsScalar c) ∧ s = utf8EncodeAll cs

instance (c : Nat) : Decidable (IsScalar c) :=
  inferInstanceAs (Decidable (_ ∧ _))

theorem utf8EncodeAll_cons (c : Nat) (cs : List Nat) :
    utf8EncodeAll (c :: cs) = utf8Encode c ++ utf8EncodeAll cs := rfl

theorem utf8EncodeAll_append (a b : List Nat) :
    utf8EncodeAll (a ++ b) = utf8EncodeAll a ++ utf8EncodeAll b := by
  simp [utf8EncodeAll]

theorem utf8Encode_ne_nil (c : Nat) : utf8Encode c ≠ [] := by
  unfold utf8Encode
  split_ifs <;> simp

theorem utf8Encode_length (c : Nat) (hc : IsScalar c) :
    ((utf8Encode c).length : Int) = runeLen c := by
  obtain ⟨hmax, hsur⟩ := hc
  unfold utf8Encode runeLen
  by_cases h1 : c < 128
  · rw [if_pos h1, if_pos h1]; rfl
  · rw [if_neg h1, if_neg h1]
    by_cases h2 : c < 2048
    · rw [if_pos h2, if_pos h2]; rfl
    · rw [if_neg h2, if_neg h2, if_neg hsur]
      by_cases h3 : c < 65536
      · rw [if_pos h3, if_pos h3]; rfl
      · rw [if_neg h3, if_neg h3, if_pos hmax]; rfl

/-- Decoding at the front of an encoded scalar recovers the scalar and
consumes exactly its encoding. -/
theorem utf8DecodeRune_encode (c : Nat) (hc : IsScalar c) (rest : GoStr) :
    utf8DecodeRune (utf8Encode c ++ rest) = (c, (utf8Encode c).length) := by
  obtain ⟨hmax, hsur⟩ := hc
  unfold utf8Encode
  by_cases h1 : c < 128
  · rw [if_pos h1]
    show utf8DecodeRune (c :: rest) = (c, 1)
    rw [utf8DecodeRune.eq_def]
    dsimp only
    rw [if_pos h1]
  · rw [if_neg h1]
    by_cases h2 : c < 2048
    · rw [if_pos h2]
      show utf8DecodeRune ((192 + c / 64) :: (128 + c % 64) :: rest) = (_, 2)
      rw [utf8DecodeRune.eq_def]
      dsimp only
      rw [if_neg (by omega), if_neg (by omega), if_pos (by omega), if_pos (by omega)]
      simp only [Prod.mk.injEq]
      exact ⟨by omega, trivial⟩
    · rw [if_neg h2]
      by_cases h3 : c < 65536
      · rw [if_pos h3]
        show utf8DecodeRune
          ((224 + c / 4096) :: (128 + c / 64 % 64) :: (128 + c % 64) :: rest) = (_, 3)
        rw [utf8DecodeRune.eq_def]
        dsimp only
        rw [if_neg (by omega), if_neg (by omega), if_neg (by omega), if_pos (by omega)]
        have hguard : (if 224 + c / 4096 = 224 then
              160 ≤ 128 + c / 64 % 64 ∧ 128 + c / 64 % 64 ≤ 191
            else if 224 + c / 4096 = 237 then
              128 ≤ 128 + c / 64 % 64 ∧ 128 + c / 64 % 64 ≤ 159
            else 128 ≤ 128 + c / 64 % 64 ∧ 128 + c / 64 % 64 ≤ 191) ∧
            128 ≤ 128 + c % 64 ∧ 128 + c % 64 ≤ 191 := by
          refine ⟨?_, by omega, by omega⟩
          split_ifs with he1 he2 <;> omega
        rw [if_pos hguard]
        simp only [Prod.mk.injEq]
        exact ⟨by omega, trivial⟩
      · rw [if_neg h3]
        show utf8DecodeRune ((240 + c / 262144) :: (128 + c / 4096 % 64) ::
          (128 + c / 64 % 64) :: (128 + c % 64) :: rest) = (_, 4)
        rw [utf8DecodeRune.eq_def]
        dsimp only
        rw [if_neg (by omega), if_neg (by omega), if_neg (by omega), if_neg (by omega),
          if_pos (by omega)]
        have hguard : (if 240 + c / 262144 = 240 then
              144 ≤ 128 + c / 4096 % 64 ∧ 128 + c / 4096 % 64 ≤ 191
            else if 240 + c / 262144 = 244 then
              128 ≤ 128 + c / 4096 % 64 ∧ 128 + c / 4096 % 64 ≤ 143
            else 128 ≤ 128 + c / 4096 % 64 ∧ 128 + c / 4096 % 64 ≤ 191) ∧
            128 ≤ 128 + c / 64 % 64 ∧ 128 + c / 64 % 64 ≤ 191 ∧
            128 ≤ 128 + c % 64 ∧ 128 + c % 64 ≤ 191 := by
          refine ⟨?_, by omega, by omega, by omega, by omega⟩
          split_ifs with he1 he2 <;> omega
        rw [if_pos hguard]
        simp only [Prod.mk.injEq]
        exact ⟨by omega, trivial⟩

set_option maxHeartbeats 1000000 in
/-- Run of the trim loop over an encoded scalar sequence: the resulting length
is the byte length of an encoded prefix, and the word-boundary marker is `-1`
or the byte length of an encoded prefix of everything seen so far. -/
theorem trimLoopFuel_boundary (m : Nat) :
    ∀ cs : List Nat, (∀ c ∈ cs, IsScalar c) →
    ∀ (done : List Nat) (fuel : Nat) (lastWB : Int) (lastRune : Nat),
      (utf8EncodeAll cs).length ≤ fuel →
      (lastWB = -1 ∨ ∃ d1 d2 : List Nat, done = d1 ++ d2 ∧
        lastWB = ((utf8EncodeAll d1).length : Int)) →
      (∃ cs1 cs2, cs = cs1 ++ cs2 ∧
        (trimLoopFuel m fuel (utf8EncodeAll cs) (utf8EncodeAll done).length
          ((utf8EncodeAll done).length : Int) lastWB lastRune).1 =
          ((utf8EncodeAll (done ++ cs1)).length : Int)) ∧
      ((trimLoopFuel m fuel (utf8EncodeAll cs) (utf8EncodeAll done).length
          ((utf8EncodeAll done).length : Int) lastWB lastRune).2 = -1 ∨
        ∃ e1 e2 : List Nat, done ++ cs = e1 ++ e2 ∧
          (trimLoopFuel m fuel (utf8EncodeAll cs) (utf8EncodeAll done).length
            ((utf8EncodeAll done).length : Int) lastWB lastRune).2 =
            ((utf8EncodeAll e1).length : Int)) := by
  intro cs
  induction cs with
  | nil =>
    intro _ done fuel lastWB lastRune _ hwb
    have hout : trimLoopFuel m fuel (utf8EncodeAll []) (utf8EncodeAll done).length
        ((utf8EncodeAll done).length : Int) lastWB lastRune =
        (((utf8EncodeAll done).length : Int), lastWB) := by
      rcases fuel with _ | f <;> rfl
    rw [hout]
    refine ⟨⟨[], [], rfl, by simp⟩, ?_⟩
    rcases hwb with h | ⟨d1, d2, hd, hw⟩
    · exact Or.inl h
    · exact Or.inr ⟨d1, d2 ++ [], by rw [hd]; simp, hw⟩
  | cons c cs' ih =>
    intro hsc done fuel lastWB lastRune hfuel hwb
    have hc : IsScalar c := hsc c (by simp)
    have hsc' : ∀ x ∈ cs', IsScalar x := fun x hx => hsc x (by simp [hx])
    rcases henc : utf8Encode c with _ | ⟨b, bs⟩
    · exact absurd henc (utf8Encode_ne_nil c)
    have hdec : utf8DecodeRune (utf8Encode c ++ utf8EncodeAll cs') =
        (c, (utf8Encode c).length) := utf8DecodeRune_encode c hc _
    have hlen1 : 1 ≤ (utf8Encode c).length := by rw [henc]; simp
    have hslen : (utf8EncodeAll (c :: cs')).length =
        (utf8Encode c).length + (utf8EncodeAll cs').length := by
      rw [utf8EncodeAll_cons]; simp
    match fuel with
    | 0 => omega
    | f + 1 =>
      have hcons : utf8EncodeAll (c :: cs') = b :: (bs ++ utf8EncodeAll cs') := by
        rw [utf8EncodeAll_cons, henc]; simp
      have hdec' : utf8DecodeRune (b :: (bs ++ utf8EncodeAll cs')) =
          (c, bs.length + 1) := by
        rw [← List.cons_append, ← henc, hdec, henc]; simp
      rw [hcons, trimLoopFuel, hdec']
      dsimp only
      have hi : (utf8EncodeAll done).length + (bs.length + 1) =
          (utf8EncodeAll (done ++ [c])).length := by
        rw [utf8EncodeAll_append]
        simp [utf8EncodeAll, henc]
      have hnl : ((utf8EncodeAll done).length : Int) + runeLen c =
          ((utf8EncodeAll (done ++ [c])).length : Int) := by
        rw [← utf8Encode_length c hc, utf8EncodeAll_append]
        simp [utf8EncodeAll]
      have hwb' : (if c = 32 ∨ c = 60 then ((utf8EncodeAll done).length : Int)
            else if lastRune = 62 then ((utf8EncodeAll done).length : Int) else lastWB) = -1 ∨
          ∃ d1 d2 : List Nat, done ++ [c] = d1 ++ d2 ∧
            (if c = 32 ∨ c = 60 then ((utf8EncodeAll done).length : Int)
              else if lastRune = 62 then ((utf8EncodeAll done).length : Int) else lastWB) =
            ((utf8EncodeAll d1).length : Int) := by
        split_ifs with hsp hgt
        · exact Or.inr ⟨done, [c], rfl, rfl⟩
        · exact Or.inr ⟨done, [c], rfl, rfl⟩
        · rcases hwb with h | ⟨d1, d2, hd, hw⟩
          · exact Or.inl h
          · exact Or.inr ⟨d1, d2 ++ [c], by rw [hd]; simp, hw⟩
      by_cases hbr : ((utf8EncodeAll done).length : Int) + runeLen c > (m : Int)
      · rw [if_pos hbr]
        refine ⟨⟨[], c :: cs', rfl, by simp⟩, ?_⟩
        rcases hwb' with h | ⟨d1, d2, hd, hw⟩
        · exact Or.inl h
        · exact Or.inr ⟨d1, d2 ++ cs', by rw [← List.append_assoc, ← hd]; simp, hw⟩
      · rw [if_neg hbr]
        have hdrop : (b :: (bs ++ utf8EncodeAll cs')).drop (bs.length + 1) =
            utf8EncodeAll cs' := by
          have : b :: (bs ++ utf8EncodeAll cs') = (b :: bs) ++ utf8EncodeAll cs' := by simp
          rw [this]
          have hlb : (b :: bs).length = bs.length + 1 := rfl
          rw [← hlb, List.drop_left]
        rw [hdrop, hi, hnl]
        have hfuel' : (utf8EncodeAll cs').length ≤ f := by omega
        have hrec := ih hsc' (done ++ [c]) f _ c hfuel' hwb'
        obtain ⟨⟨cs1', cs2', hsplit, hfst⟩, hsnd⟩ := hrec
        refine ⟨⟨c :: cs1', cs2', by rw [hsplit, List.cons_append], ?_⟩, ?_⟩
        · have hasc : done ++ [c] ++ cs1' = done ++ c :: cs1' := by simp
          rw [hfst, hasc]
        · rcases hsnd with h | ⟨e1, e2, he, hw⟩
          · exact Or.inl h
          · refine Or.inr ⟨e1, e2, ?_, hw⟩
            rw [← he]
            simp

/-- `trimUT8StringUpTo` on an encoded scalar sequence cuts at a rune boundary:
the result is the encoding of a prefix of the runes. -/
theorem trimUT8StringUpTo_boundary (m : Nat) (cs : List Nat)
    (hsc : ∀ c ∈ cs, IsScalar c) :
    ∃ cs1 cs2, cs = cs1 ++ cs2 ∧
      trimUT8StringUpTo m (utf8EncodeAll cs) = utf8EncodeAll cs1 := by
  obtain ⟨⟨cs1, cs2, hsplit, hfst⟩, hsnd⟩ := trimLoopFuel_boundary m cs hsc []
    (utf8EncodeAll cs).length (-1) 0 (le_refl _) (Or.inl rfl)
  have h0 : (utf8EncodeAll ([] : List Nat)).length = 0 := rfl
  rw [h0] at hfst hsnd
  simp only [Nat.cast_zero, List.nil_append] at hfst hsnd
  unfold trimUT8StringUpTo
  by_cases hgt : (trimLoopFuel m (utf8EncodeAll cs).length (utf8EncodeAll cs) 0 0 (-1) 0).2 > 0
  · rcases hsnd with hminus | ⟨e1, e2, hee, hw⟩
    · rw [hminus] at hgt
      omega
    · refine ⟨e1, e2, hee, ?_⟩
      rw [if_pos hgt, hw, Int.toNat_natCast]
      conv_lhs => rw [hee]
      rw [utf8EncodeAll_append, List.take_left]
  · refine ⟨cs1, cs2, hsplit, ?_⟩
    rw [if_neg hgt, hfst, Int.toNat_natCast]
    conv_lhs => rw [hsplit]
    rw [utf8EncodeAll_append, List.take_left]

/-- The folding loop on an encoded scalar sequence: it succeeds, the chunks
concatenate back to the input, every chunk respects the budget, and every
chunk is valid UTF-8 (no code point is split across a fold). -/
theorem foldChunks_spec (m1 : Nat) (hm : 4 ≤ m1) :
    ∀ fuel cs, (∀ c ∈ cs, IsScalar c) → (utf8EncodeAll cs).length ≤ fuel →
      ∃ mids fin, foldChunks m1 fuel (utf8EncodeAll cs) = some (mids, fin) ∧
        mids.flatten ++ fin = utf8EncodeAll cs ∧
        (∀ x ∈ mids, x.length ≤ m1 ∧ ValidUTF8 x) ∧
        fin.length ≤ m1 ∧ ValidUTF8 fin := by
  intro fuel
  induction fuel with
  | zero =>
    intro cs hsc hfuel
    have hz : ¬((utf8EncodeAll cs).length > m1) := by omega
    refine ⟨[], utf8EncodeAll cs, ?_, by simp, by simp, by omega, ⟨cs, hsc, rfl⟩⟩
    rw [foldChunks, if_neg hz]
  | succ g ih =>
    intro cs hsc hfuel
    rw [foldChunks]
    by_cases hlong : (utf8EncodeAll cs).length > m1
    · rw [if_pos hlong]
      dsimp only
      obtain ⟨cs1, cs2, hsplit, htrim⟩ := trimUT8StringUpTo_boundary m1 cs hsc
      have hsc1 : ∀ x ∈ cs1, IsScalar x := by
        intro x hx
        exact hsc x (by rw [hsplit]; exact List.mem_append_left _ hx)
      have hsc2 : ∀ x ∈ cs2, IsScalar x := by
        intro x hx
        exact hsc x (by rw [hsplit]; exact List.mem_append_right _ hx)
      have hdrop : (utf8EncodeAll cs).drop
          (trimUT8StringUpTo m1 (utf8EncodeAll cs)).length = utf8EncodeAll cs2 := by
        rw [htrim]
        conv_lhs => rw [hsplit]
        rw [utf8EncodeAll_append, List.drop_left]
      have hne := trimUT8StringUpTo_ne_nil m1 (utf8EncodeAll cs) hm
        (by intro h0; rw [h0] at hlong; simp at hlong)
      have hlen1 : 1 ≤ (trimUT8StringUpTo m1 (utf8EncodeAll cs)).length :=
        List.length_pos.mpr hne
      have hcount : (utf8EncodeAll cs).length =
          (utf8EncodeAll cs1).length + (utf8EncodeAll cs2).length := by
        conv_lhs => rw [hsplit]
        rw [utf8EncodeAll_append]
        simp
      have hfuel' : (utf8EncodeAll cs2).length ≤ g := by
        rw [htrim] at hlen1
        omega
      obtain ⟨mids', fin, hfc, hcat, hmids, hfin, hvfin⟩ := ih cs2 hsc2 hfuel'
      rw [hdrop, hfc]
      refine ⟨trimUT8StringUpTo m1 (utf8EncodeAll cs) :: mids', fin, rfl, ?_, ?_,
        hfin, hvfin⟩
      · rw [List.flatten_cons, htrim, List.append_assoc, hcat]
        conv_rhs => rw [hsplit]
        rw [utf8EncodeAll_append]
      · intro x hx
        rcases List.mem_cons.mp hx with hx1 | hx2
        · subst hx1
          exact ⟨trimUT8StringUpTo_length_le m1 _, cs1, hsc1, htrim⟩
        · exact hmids x hx2
    · rw [if_neg hlong]
      exact ⟨[], utf8EncodeAll cs, rfl, by simp, by simp, by omega, ⟨cs, hsc, rfl⟩⟩

set_option maxHeartbeats 1000000 in
/-- The claim C2: when the assembled content line of a property exceeds
`MaxLength`, the serializer splits it so that (1) no physical line exceeds
`MaxLength` octets (continuations count their leading blank), (2) the chunks
concatenate back to the exact original logical line — removing each
newline-plus-single-blank fold sequence reconstructs it — and (3) every chunk
is valid UTF-8, so no multi-byte code point is split across a fold. -/
theorem serializeBaseProperty_folding (bp : BaseProperty)
    (cfg : SerializationConfiguration) (h5 : 5 ≤ cfg.maxLength)
    (cs : List Nat) (hsc : ∀ c ∈ cs, IsScalar c)
    (hr : assembleProperty bp = utf8EncodeAll cs)
    (hlong : (assembleProperty bp).length > cfg.maxLength) :
    ∃ (mids : List GoStr) (fin : GoStr),
      serializeBaseProperty bp cfg = some
        (trimUT8StringUpTo cfg.maxLength (assembleProperty bp) ++ cfg.newLine ++
          (mids.map (fun x => 32 :: (x ++ cfg.newLine))).flatten ++
          32 :: (fin ++ cfg.newLine)) ∧
      trimUT8StringUpTo cfg.maxLength (assembleProperty bp) ++ mids.flatten ++ fin =
        assembleProperty bp ∧
      (trimUT8StringUpTo cfg.maxLength (assembleProperty bp)).length ≤ cfg.maxLength ∧
      (∀ x ∈ mids, 1 + x.length ≤ cfg.maxLength) ∧
      1 + fin.length ≤ cfg.maxLength ∧
      ValidUTF8 (trimUT8StringUpTo cfg.maxLength (assembleProperty bp)) ∧
      (∀ x ∈ mids, ValidUTF8 x) ∧ ValidUTF8 fin := by
  unfold serializeBaseProperty
  dsimp only
  rw [if_pos hlong]
  rw [hr] at hlong ⊢
  obtain ⟨cs1, cs2, hsplit, htrim⟩ := trimUT8StringUpTo_boundary cfg.maxLength cs hsc
  have hsc1 : ∀ x ∈ cs1, IsScalar x := by
    intro x hx
    exact hsc x (by rw [hsplit]; exact List.mem_append_left _ hx)
  have hsc2 : ∀ x ∈ cs2, IsScalar x := by
    intro x hx
    exact hsc x (by rw [hsplit]; exact List.mem_append_right _ hx)
  have hdrop : (utf8EncodeAll cs).drop
      (trimUT8StringUpTo cfg.maxLength (utf8EncodeAll cs)).length = utf8EncodeAll cs2 := by
    rw [htrim]
    conv_lhs => rw [hsplit]
    rw [utf8EncodeAll_append, List.drop_left]
  obtain ⟨mids, fin, hfc, hcat, hmids, hfin, hvfin⟩ :=
    foldChunks_spec (cfg.maxLength - 1) (by omega) (utf8EncodeAll cs2).length cs2 hsc2
      (le_refl _)
  rw [hdrop, hfc]
  refine ⟨mids, fin, rfl, ?_, trimUT8StringUpTo_length_le _ _, ?_, by omega, ?_, ?_, hvfin⟩
  · rw [htrim, List.append_assoc, hcat]
    conv_rhs => rw [hsplit]
    rw [utf8EncodeAll_append]
  · intro x hx
    have := (hmids x hx).1
    omega
  · exact ⟨cs1, hsc1, htrim⟩
  · intro x hx
    exact (hmids x hx).2

/-- A 5-octet line length configuration used by the folding witness. -/
def cfg5crlf : SerializationConfiguration := ⟨5, [13, 10], 5⟩

/-- Witness for `serializeBaseProperty_folding` at a concrete over-long
property. -/
theorem serializeBaseProperty_folding_witness :
    ∃ (mids : List GoStr) (fin : GoStr),
      serializeBaseProperty ⟨gs "X", [], gs "abcdefgh"⟩ cfg5crlf = some
        (trimUT8StringUpTo cfg5crlf.maxLength
            (assembleProperty ⟨gs "X", [], gs "abcdefgh"⟩) ++ cfg5crlf.newLine ++
          (mids.map (fun x => 32 :: (x ++ cfg5crlf.newLine))).flatten ++
          32 :: (fin ++ cfg5crlf.newLine)) ∧
      trimUT8StringUpTo cfg5crlf.maxLength
          (assembleProperty ⟨gs "X", [], gs "abcdefgh"⟩) ++ mids.flatten ++ fin =
        assembleProperty ⟨gs "X", [], gs "abcdefgh"⟩ ∧
      (trimUT8StringUpTo cfg5crlf.maxLength
          (assembleProperty ⟨gs "X", [], gs "abcdefgh"⟩)).length ≤ cfg5crlf.maxLength ∧
      (∀ x ∈ mids, 1 + x.length ≤ cfg5crlf.maxLength) ∧
      1 + fin.length ≤ cfg5crlf.maxLength ∧
      ValidUTF8 (trimUT8StringUpTo cfg5crlf.maxLength
        (assembleProperty ⟨gs "X", [], gs "abcdefgh"⟩)) ∧
      (∀ x ∈ mids, ValidUTF8 x) ∧ ValidUTF8 fin :=
  serializeBaseProperty_folding ⟨gs "X", [], gs "abcdefgh"⟩ cfg5crlf (by decide)
    (gs "X:abcdefgh") (by decide) (by rfl) (by decide)

/-! ### The property grammar parser (`ParseProperty`)

Errors are modelled structurally; each constructor corresponds to one
`fmt.Errorf`/`errors.New` site and carries the same data the Go message
interpolates. -/

inductive ParseErr where
  | unexpectedAscii (b : Nat)               -- "unexpected char ascii:%d in property param value"
  | unexpectedEndOfParamValue               -- "unexpected end of param value"
  | unexpectedDoubleQuote                   -- "unexpected double quote in property param value"
  | missingParamOperator (k tok : GoStr)    -- "missing property param operator for %s in %s"
  | missingParamValue (k tok : GoStr)       -- "missing property value for %s in %s"
  | unexpectedEndOfProperty (tok : GoStr)   -- "unexpected end of property %s"
  | paramError (e : ParseErr) (k tok : GoStr)   -- "parse error: %w %s in %s"
  | propertyError (tok : GoStr) (e : ParseErr)  -- "parsing property %s: %w"
  | lineError (ln : Nat) (e : ParseErr)         -- "parsing line %d: %w"
  | componentLineError (ln : Nat) (e : ParseErr) -- "parsing component property %d: %w"
  | parsingCalendarLine (ln : Nat)          -- "parsing calendar line %d"
  | parsingComponentLine                    -- "parsing component line"
  | expectedVCalendar                       -- "malformed calendar; expected a vcalendar"
  | expectedBegin                           -- "malformed calendar; expected begin"
  | expectedEnd                             -- "malformed calendar; expected end"
  | expectedBeginOrEnd                      -- "malformed calendar; expected begin or end"
  | unexpectedEnd                           -- "malformed calendar; unexpected end"
  | badState                                -- "malformed calendar; bad state"
  | vCalendarNotWhereExpected               -- "malformed calendar; vcalendar not where expected"
  | unbalancedEnd                           -- "unbalanced end"
  | ranOutOfLines                           -- "ran out of lines"
  | failedToParseEvent (e : ParseErr)       -- "failed to parse event: %w"
  | fuelExhausted                           -- unreachable fuel guard of the model
deriving Repr, DecidableEq

/-- A byte matched by the character class of `propertyIanaTokenReg`,
`[A-Za-z0-9-]`. -/
def isTokenChar (b : Nat) : Bool :=
  (65 ≤ b && b ≤ 90) || (97 ≤ b && b ≤ 122) || (48 ≤ b && b ≤ 57) || b = 45

def findTokenStart : GoStr → Nat → Option Nat
  | [], _ => none
  | b :: t, i => if isTokenChar b then some i else findTokenStart t (i + 1)

def tokenRunLength : GoStr → Nat
  | [] => 0
  | b :: t => if isTokenChar b then 1 + tokenRunLength t else 0

/-- `FindIndex` of the regular expression `[A-Za-z0-9-]{1,}`: the leftmost
maximal run of token bytes. -/
def findTokenRun (l : GoStr) : Option (Nat × Nat) :=
  match findTokenStart l 0 with
  | none => none
  | some i => some (i, i + tokenRunLength (l.drop i))

/-- Length of the `^.*` match: the run of bytes up to the first newline. -/
def nonNlRunLength : GoStr → Nat
  | [] => 0
  | b :: t => if b = 10 then 0 else 1 + nonNlRunLength t

/-- `r.ICalParameters[k] = append(r.ICalParameters[k], v)`. -/
def addParamValue : List (GoStr × List GoStr) → GoStr → GoStr → List (GoStr × List GoStr)
  | [], k, v => [(k, [v])]
  | (k', vs) :: t, k, v =>
    if k' = k then (k', vs ++ [v]) :: t else (k', vs) :: addParamValue t k v

/-- The byte scan of `parsePropertyParamValue`.  One loop step advances `p` by
one or two, so a fuel of `s.length + 1` suffices.  The two Go `case` arms for
0x00–0x08 and 0x0A–0x1F return the same error. -/
def ppvLoop : Nat → GoStr → Nat → Bool → Nat → GoStr → Except ParseErr (GoStr × Nat)
  | 0, _, _, _, _, _ => .error .fuelExhausted
  | fuel + 1, s, p, quoted, ip, acc =>
    if p < s.length then
      let b := s.getD p 0
      if b ≤ 8 ∨ (10 ≤ b ∧ b ≤ 31) then .error (.unexpectedAscii b)
      else if b = 92 then
        -- ESCAPED-CHAR handling: the byte after the backslash is consumed
        -- through FromText without any control-character check
        if p + 2 ≥ s.length then .error .unexpectedEndOfParamValue
        else ppvLoop fuel s (p + 2) quoted ip (acc ++ fromText [s.getD (p + 1) 0])
      else if b = 59 ∨ b = 58 ∨ b = 44 then
        if quoted then ppvLoop fuel s (p + 1) quoted ip (acc ++ [b])
        else .ok (acc, p)
      else if b = 34 then
        if p = ip then ppvLoop fuel s (p + 1) true ip acc
        else if quoted then .ok (acc, p + 1)
        else .error .unexpectedDoubleQuote
      else ppvLoop fuel s (p + 1) quoted ip (acc ++ [b])
    else .ok (acc, p)

def parsePropertyParamValue (s : GoStr) (p : Nat) : Except ParseErr (GoStr × Nat) :=
  ppvLoop (s.length + 1) s p false p []

/-- The comma-separated value loop of `parsePropertyParam`. -/
def paramValuesLoop : Nat → BaseProperty → GoStr → GoStr → Nat →
    Except ParseErr (Option (BaseProperty × Nat))
  | 0, _, _, _, _ => .error .fuelExhausted
  | fuel + 1, r, k, s, p =>
    if p ≥ s.length then .ok none
    else
      match parsePropertyParamValue s p with
      | .error e => .error (.paramError e k r.token)
      | .ok (v, p') =>
        let r' : BaseProperty := ⟨r.token, addParamValue r.params k v, r.value⟩
        if p' ≥ s.length then .error (.unexpectedEndOfProperty r.token)
        else if s.getD p' 0 = 44 then paramValuesLoop fuel r' k s (p' + 1)
        else .ok (some (r', p'))

def parsePropertyParam (r : BaseProperty) (s : GoStr) (p : Nat) :
    Except ParseErr (Option (BaseProperty × Nat)) :=
  match findTokenRun (s.drop p) with
  | none => .ok none
  | some (_, e) =>
    -- k = contentLine[p : p+tokenPos[1]]
    let k := (s.drop p).take e
    let p1 := p + e
    if p1 ≥ s.length then .error (.missingParamOperator k r.token)
    else if s.getD p1 0 = 61 then paramValuesLoop (s.length + 1) r k s (p1 + 1)
    else .error (.missingParamValue k r.token)

/-- `parsePropertyValue`: the `^.*` match always succeeds; a TEXT-typed value
is unescaped. -/
def parsePropertyValue (r : BaseProperty) (s : GoStr) (p : Nat) : Option BaseProperty :=
  let v := (s.drop p).take (nonNlRunLength (s.drop p))
  let r' : BaseProperty := ⟨r.token, r.params, v⟩
  some (if getValueType r' = gs "TEXT" then ⟨r'.token, r'.params, fromText r'.value⟩ else r')

/-- The `':'`/`';'` dispatch loop of `ParseProperty`. -/
def parsePropertyLoop : Nat → BaseProperty → GoStr → Nat →
    Except ParseErr (Option BaseProperty)
  | 0, _, _, _ => .error .fuelExhausted
  | fuel + 1, r, s, p =>
    if p ≥ s.length then .ok none
    else if s.getD p 0 = 58 then .ok (parsePropertyValue r s (p + 1))
    else if s.getD p 0 = 59 then
      match parsePropertyParam r s (p + 1) with
      | .error e => .error (.propertyError r.token e)
      | .ok none => .ok none
      | .ok (some (r', np)) => parsePropertyLoop fuel r' s np
    else .ok none

/-- `ParseProperty`: `.ok none` models the Go `nil, nil` return (the line is
unparseable), `.error` a parse error. -/
def parseProperty (line : GoStr) : Except ParseErr (Option BaseProperty) :=
  match findTokenRun line with
  | none => .ok none
  | some (s0, e0) =>
    let r : BaseProperty := ⟨(line.drop s0).take (e0 - s0), [], []⟩
    parsePropertyLoop (line.length + 1) r line e0

/-! ### The component data model and tree parser -/

/-- The concrete component types of the source plus the `GeneralComponent`
fallback carrying its literal token. -/
inductive CompKind where
  | vevent | vtodo | vjournal | vbusy | vtimezone | valarm | standard | daylight
  | general (token : GoStr)
deriving Repr, DecidableEq

/-- A component: its variant and its `ComponentBase` payload (ordered
properties, ordered child components). -/
inductive GoComponent where
  | mk (kind : CompKind) (properties : List BaseProperty)
      (components : List GoComponent)
deriving Repr

structure GoCalendar where
  properties : List BaseProperty
  components : List GoComponent
deriving Repr

/-- The `ComponentType` string a variant serializes as. -/
def componentTypeString : CompKind → GoStr
  | .vevent => gs "VEVENT"
  | .vtodo => gs "VTODO"
  | .vjournal => gs "VJOURNAL"
  | .vbusy => gs "VFREEBUSY"
  | .vtimezone => gs "VTIMEZONE"
  | .valarm => gs "VALARM"
  | .standard => gs "STANDARD"
  | .daylight => gs "DAYLIGHT"
  | .general t => t

/-- The dispatch of `GeneralParseComponent` on the BEGIN value. -/
def kindOfToken (v : GoStr) : CompKind :=
  if v = gs "VEVENT" then .vevent
  else if v = gs "VTODO" then .vtodo
  else if v = gs "VJOURNAL" then .vjournal
  else if v = gs "VFREEBUSY" then .vbusy
  else if v = gs "VTIMEZONE" then .vtimezone
  else if v = gs "VALARM" then .valarm
  else if v = gs "STANDARD" then .standard
  else if v = gs "DAYLIGHT" then .daylight
  else .general v

/-- `ParseVEventWithError` wraps errors; the other typed wrappers pass the
error through unchanged. -/
def wrapComponentErr (v : GoStr) (e : ParseErr) : ParseErr :=
  if v = gs "VEVENT" then .failedToParseEvent e else e

/-- The `ParseComponent` line loop.  The `BEGIN` branch inlines
`GeneralParseComponent` (VCALENDAR rejection, recursive child parse, variant
wrap); fuel decreases at every line read and at every nesting step. -/
def parseComponentLoop : Nat → GoStr → GoStr → List BaseProperty →
    List GoComponent → Nat → Except ParseErr ((List BaseProperty × List GoComponent) × GoStr)
  | 0, _, _, _, _, _ => .error .fuelExhausted
  | fuel + 1, stream, startValue, props, comps, ln =>
    match readLine stream with
    | (none, _, _) => .error .ranOutOfLines
    | (some line, eof, rest) =>
      if line = [] then
        if eof then .error .ranOutOfLines
        else parseComponentLoop fuel rest startValue props comps (ln + 1)
      else
        match parseProperty line with
        | .error e => .error (.componentLineError ln e)
        | .ok none => .error .parsingComponentLine
        | .ok (some bp) =>
          if bp.token = gs "END" then
            if bp.value = startValue then .ok ((props, comps), rest)
            else .error .unbalancedEnd
          else if bp.token = gs "BEGIN" then
            if bp.value = gs "VCALENDAR" then .error .vCalendarNotWhereExpected
            else
              match parseComponentLoop fuel rest bp.value [] [] 0 with
              | .error e => .error (wrapComponentErr bp.value e)
              | .ok ((cprops, ccomps), rest') =>
                let co := GoComponent.mk (kindOfToken bp.value) cprops ccomps
                if eof then .error .ranOutOfLines
                else parseComponentLoop fuel rest' startValue props (comps ++ [co]) (ln + 1)
          else
            if eof then .error .ranOutOfLines
            else parseComponentLoop fuel rest startValue (props ++ [bp]) comps (ln + 1)

/-- `GeneralParseComponent` for use by `ParseCalendar`. -/
def generalParseComponent (fuel : Nat) (stream : GoStr) (startLine : BaseProperty) :
    Except ParseErr (GoComponent × GoStr) :=
  if startLine.value = gs "VCALENDAR" then .error .vCalendarNotWhereExpected
  else
    match parseComponentLoop fuel stream startLine.value [] [] 0 with
    | .error e => .error (wrapComponentErr startLine.value e)
    | .ok ((p, c), rest) => .ok (GoComponent.mk (kindOfToken startLine.value) p c, rest)

/-- The states of the `ParseCalendar` machine. -/
inductive CalState where
  | stBegin | stProperties | stComponents | stEnd
deriving Repr, DecidableEq

/-- The `ParseCalendar` state machine loop: the loop continues unless the read
reported `io.EOF` (`cont = false`), in which case the calendar built so far is
returned without error. -/
def parseCalendarLoop : Nat → GoStr → CalState → GoCalendar → Nat →
    Except ParseErr GoCalendar
  | 0, _, _, _, _ => .error .fuelExhausted
  | fuel + 1, stream, state, cal, ln =>
    match readLine stream with
    | (none, _, _) => .ok cal
    | (some line, eof, rest) =>
      if line = [] then
        if eof then .ok cal else parseCalendarLoop fuel rest state cal (ln + 1)
      else
        match parseProperty line with
        | .error e => .error (.lineError ln e)
        | .ok none => .error (.parsingCalendarLine ln)
        | .ok (some bp) =>
          match state with
          | .stBegin =>
            if bp.token = gs "BEGIN" then
              if bp.value = gs "VCALENDAR" then
                if eof then .ok cal
                else parseCalendarLoop fuel rest .stProperties cal (ln + 1)
              else .error .expectedVCalendar
            else .error .expectedBegin
          | .stProperties =>
            if bp.token = gs "END" then
              if bp.value = gs "VCALENDAR" then
                if eof then .ok cal
                else parseCalendarLoop fuel rest .stEnd cal (ln + 1)
              else .error .expectedEnd
            else if bp.token = gs "BEGIN" then
              -- state becomes "components" and the same line falls through
              match generalParseComponent fuel rest bp with
              | .error e => .error e
              | .ok (co, rest') =>
                if eof then .ok ⟨cal.properties, cal.components ++ [co]⟩
                else parseCalendarLoop fuel rest' .stComponents
                  ⟨cal.properties, cal.components ++ [co]⟩ (ln + 1)
            else
              -- unknown property names are retained
              if eof then .ok ⟨cal.properties ++ [bp], cal.components⟩
              else parseCalendarLoop fuel rest .stProperties
                ⟨cal.properties ++ [bp], cal.components⟩ (ln + 1)
          | .stComponents =>
            if bp.token = gs "END" then
              if bp.value = gs "VCALENDAR" then
                if eof then .ok cal
                else parseCalendarLoop fuel rest .stEnd cal (ln + 1)
              else .error .expectedEnd
            else if bp.token = gs "BEGIN" then
              match generalParseComponent fuel rest bp with
              | .error e => .error e
              | .ok (co, rest') =>
                if eof then .ok ⟨cal.properties, cal.components ++ [co]⟩
                else parseCalendarLoop fuel rest' .stComponents
                  ⟨cal.properties, cal.components ++ [co]⟩ (ln + 1)
            else .error .expectedBeginOrEnd
          | .stEnd => .error .unexpectedEnd

/-- `ParseCalendar` over a byte stream.  Each loop iteration consumes at least
one byte and each nesting step follows a consumed BEGIN line, so twice the
input length (plus slack) bounds the fuel. -/
def parseCalendar (input : GoStr) : Except ParseErr GoCalendar :=
  parseCalendarLoop (2 * input.length + 4) input .stBegin ⟨[], []⟩ 0

/-! ### Component and calendar serialization -/

/-- Serialize a property list in order, aborting on a property failure. -/
def serializeProps (cfg : SerializationConfiguration) : List BaseProperty → Option GoStr
  | [] => some []
  | p :: t =>
    match serializeBaseProperty p cfg with
    | none => none
    | some s =>
      match serializeProps cfg t with
      | none => none
      | some r => some (s ++ r)

/-- `serializeThis` over a component list (`BEGIN:`type, properties, children,
`END:`type); fueled for the nested recursion, `sizeOf` bounds it. -/
def serializeComponentsFuel (cfg : SerializationConfiguration) :
    Nat → List GoComponent → Option GoStr
  | 0, _ => none
  | _ + 1, [] => some []
  | fuel + 1, GoComponent.mk kind props comps :: t =>
    match serializeProps cfg props, serializeComponentsFuel cfg fuel comps,
        serializeComponentsFuel cfg fuel t with
    | some ps, some cc, some tt =>
      some ((gs "BEGIN:" ++ componentTypeString kind ++ cfg.newLine) ++ ps ++ cc ++
        (gs "END:" ++ componentTypeString kind ++ cfg.newLine) ++ tt)
    | _, _, _ => none

/-- Number of components in a forest, bounding the recursion depth of the
fueled serializer. -/
def compListSize : List GoComponent → Nat
  | [] => 0
  | GoComponent.mk _ _ comps :: t => 1 + compListSize comps + compListSize t

/-- `Calendar.SerializeTo`: the VCALENDAR wrapper, the calendar properties,
then the components. -/
def serializeCalendar (cal : GoCalendar) (cfg : SerializationConfiguration) :
    Option GoStr :=
  match serializeProps cfg cal.properties with
  | none => none
  | some ps =>
    match serializeComponentsFuel cfg (compListSize cal.components + 1) cal.components with
    | none => none
    | some cc =>
      some (gs "BEGIN:VCALENDAR" ++ cfg.newLine ++ ps ++ cc ++
        gs "END:VCALENDAR" ++ cfg.newLine)

/-! ### Property removal (`ComponentBase.RemovePropertyByFunc`) -/

/-- The kept/removed split of `RemovePropertyByFunc`: an entry is kept exactly
when `IANAToken != removeProp && remove(p)`, otherwise it is removed; the
mutated property list is the kept entries and the removed entries are
returned. -/
def removePropertyByFunc : List BaseProperty → GoStr → (BaseProperty → Bool) →
    List BaseProperty × List BaseProperty
  | [], _, _ => ([], [])
  | p :: t, removeProp, remove =>
    let (kept, removed) := removePropertyByFunc t removeProp remove
    if p.token ≠ removeProp ∧ remove p then (p :: kept, removed)
    else (kept, p :: removed)

/-- `RemovePropertyByValue` delegates with the value-equality predicate. -/
def removePropertyByValue (props : List BaseProperty) (removeProp value : GoStr) :
    List BaseProperty × List BaseProperty :=
  removePropertyByFunc props removeProp (fun p => p.value == value)

/-- Counterexample to C4 as stated: on a stream whose first physical line is
empty (a bare CRLF), `ReadLine` does not yield an empty logical line; it skips
the empty line and returns the following line `FOO`. -/
theorem readLine_empty_line_counterexample :
    readLine (gs "\r\nFOO\r\n") = (some (gs "FOO"), false, []) ∧
    (readLine (gs "\r\nFOO\r\n")).1 ≠ some [] := by
  constructor
  · rfl
  · decide

/-! ### Concrete calendars exercising the full parse/serialize pipeline -/

/-- A calendar whose only property carries the escaped control byte `\\`␁ in a
parameter value. -/
def T1bytes : GoStr :=
  gs "BEGIN:VCALENDAR\r\nA;P=" ++ [92, 1] ++ gs ":v\r\nEND:VCALENDAR\r\n"

def cal1 : GoCalendar := ⟨[⟨gs "A", [(gs "P", [[1]])], gs "v"⟩], []⟩

/-- Serializing `cal1` re-emits the raw control byte without the backslash. -/
def S1bytes : GoStr :=
  gs "BEGIN:VCALENDAR\r\nA;P=" ++ [1] ++ gs ":v\r\nEND:VCALENDAR\r\n"

def E1 : ParseErr :=
  .lineError 1 (.propertyError (gs "A")
    (.paramError (.unexpectedAscii 1) (gs "P") (gs "A")))

/-- The claim C1, refuted: the parse→serialize→parse round trip is not closed.  The calendar
`T1bytes` (a property with parameter value `\\`␁, the RFC 6868 style escape the
parser accepts) parses to `cal1`; serializing `cal1` emits the control byte ␁
raw (the parameter serializer escapes only `, " ; : \\` and `'`), and the
parser rejects that output with `unexpected char ascii:1`, so
`parse (serialize (parse T)) ≠ parse T`. -/
theorem parse_serialize_parse_diverges :
    parseCalendar T1bytes = .ok cal1 ∧
    serializeCalendar cal1 cfg75crlf = some S1bytes ∧
    parseCalendar S1bytes = .error E1 ∧
    parseCalendar S1bytes ≠ parseCalendar T1bytes := by
  have h1 : parseCalendar T1bytes = .ok cal1 := by rfl
  have h3 : parseCalendar S1bytes = .error E1 := by rfl
  refine ⟨h1, ?_, h3, ?_⟩
  · have h : compListSize cal1.components = 0 := by simp [compListSize, cal1]
    simp only [serializeCalendar, h]
    decide
  · rw [h1, h3]
    simp

def T5bytes : GoStr :=
  gs "BEGIN:VCALENDAR\r\nB;Q=" ++ [92, 2] ++ gs ":w\r\nEND:VCALENDAR\r\n"

def cal5 : GoCalendar := ⟨[⟨gs "B", [(gs "Q", [[2]])], gs "w"⟩], []⟩

def S5bytes : GoStr :=
  gs "BEGIN:VCALENDAR\r\nB;Q=" ++ [2] ++ gs ":w\r\nEND:VCALENDAR\r\n"

def E5 : ParseErr :=
  .lineError 1 (.propertyError (gs "B")
    (.paramError (.unexpectedAscii 2) (gs "Q") (gs "B")))

/-- The claim C5, refuted: `serialize (parse (serialize (parse T)))` is not stable, because it is
not even defined for every accepted `T`: the accepted input `T5bytes` (its
parameter value holds the escape `\\`␂) serializes to `S5bytes`, which carries
the control byte ␂ raw, and the second parse fails, so the composition has no
value to be byte-identical with. -/
theorem serialize_parse_round_trip_unstable :
    parseCalendar T5bytes = .ok cal5 ∧
    serializeCalendar cal5 cfg75crlf = some S5bytes ∧
    parseCalendar S5bytes = .error E5 ∧
    (parseCalendar S5bytes).toOption = none := by
  refine ⟨by rfl, ?_, by rfl, by rfl⟩
  have h : compListSize cal5.components = 0 := by simp [compListSize, cal5]
  simp only [serializeCalendar, h]
  decide

def T8bytes : GoStr :=
  gs "BEGIN:VCALENDAR\r\nBEGIN:VEVENT\r\n" ++
    (gs "X-CUSTOM-FIELD:test" ++ [13, 10]) ++ gs "END:VEVENT\r\nEND:VCALENDAR\r\n"

def cal8 : GoCalendar :=
  ⟨[], [GoComponent.mk .vevent [⟨gs "X-CUSTOM-FIELD", [], gs "test"⟩] []]⟩

/-- The claim C8: an unrecognized vendor property survives the round trip verbatim.
Parsing `T8bytes` keeps the `X-CUSTOM-FIELD` line as an ordinary property of
the VEVENT component, and serializing the parsed calendar reproduces the input
byte for byte, including the exact line `X-CUSTOM-FIELD:test` followed by
CRLF. -/
theorem x_custom_field_round_trips :
    parseCalendar T8bytes = .ok cal8 ∧
    cal8 = ⟨[], [GoComponent.mk .vevent [⟨gs "X-CUSTOM-FIELD", [], gs "test"⟩] []]⟩ ∧
    serializeCalendar cal8 cfg75crlf = some T8bytes ∧
    T8bytes = gs "BEGIN:VCALENDAR\r\nBEGIN:VEVENT\r\n" ++
      (gs "X-CUSTOM-FIELD:test" ++ [13, 10]) ++ gs "END:VEVENT\r\nEND:VCALENDAR\r\n" := by
  refine ⟨by rfl, rfl, ?_, rfl⟩
  have h : compListSize cal8.components = 1 := by simp [compListSize, cal8]
  simp only [serializeCalendar, h]
  decide

/-- The claim C7, refuted: a parameter value holding a control character does not always make
`ParseProperty` fail.  A raw control byte is rejected with an error carrying
the parameter name and the property name (first conjunct, for the byte ␁,
which lies in the range 0x00–0x08).  But the ESCAPED-CHAR branch consumes the
byte after a backslash with no control-character check, so the line
`A;P=\\`␁`:v` parses successfully and the parameter value of `P` holds that
same control byte ␁ (second conjunct). -/
theorem parseProperty_param_control_chars :
    parseProperty (gs "A;P=" ++ [1] ++ gs ":v") =
      .error (.propertyError (gs "A")
        (.paramError (.unexpectedAscii 1) (gs "P") (gs "A"))) ∧
    parseProperty (gs "A;P=" ++ [92, 1] ++ gs ":v") =
      .ok (some ⟨gs "A", [(gs "P", [[1]])], gs "v"⟩) ∧
    (1 : Nat) ∈ [1] ∧ (1 : Nat) ≤ 8 := by
  exact ⟨by rfl, by rfl, by decide, by decide⟩

/-- The claim C3, refuted: the kept/removed split of `RemovePropertyByFunc` is inverted with
respect to the claim.  A property whose name differs from `removeProp` and
whose predicate is false is removed rather than kept (first conjunct: a
`DESCRIPTION` property disappears when asked to remove `UID` entries with
value `x`), and `RemovePropertyByValue` removes a same-name property whose
value does not match (second conjunct: `UID:a` is removed when asked to
remove `UID` entries of value `b`).  The remaining conjuncts record that the
name differs, the predicate is false and the values differ, so the claim says
both properties should have been kept. -/
theorem removePropertyByFunc_keeps_inverted :
    removePropertyByFunc [⟨gs "DESCRIPTION", [], gs "d"⟩] (gs "UID")
        (fun p => p.value == gs "x") = ([], [⟨gs "DESCRIPTION", [], gs "d"⟩]) ∧
    removePropertyByValue [⟨gs "UID", [], gs "a"⟩] (gs "UID") (gs "b") =
      ([], [⟨gs "UID", [], gs "a"⟩]) ∧
    gs "DESCRIPTION" ≠ gs "UID" ∧
    ((⟨gs "DESCRIPTION", [], gs "d"⟩ : BaseProperty).value == gs "x") = false ∧
    gs "a" ≠ gs "b" := by
  exact ⟨by rfl, by rfl, by decide, by decide, by decide⟩

end ICal
